import Mathlib

/-!
Shallow embedding of the relevance-ranking engine of this repository
(src/matcher.py): the dataclass Paper, the BM25Matcher scoring pipeline
(corpus statistics, per-field BM25 scores, title boost, overlap bonus,
filter / sort / truncate), and the document-loading helpers
(load_papers_from_jsonl line handling and load_papers_from_directory
deduplication).

Modelling conventions:
- Python str is modelled as List Char (ASCII fragment); str.lower is a
  per-character map, str.split() counts maximal runs of non-whitespace.
- The compiled regular expression r-backslash-b + escaped keyword +
  r-backslash-b with IGNORECASE, applied by findall to already lowercased
  text, is modelled by counting left-to-right non-overlapping literal
  occurrences of the (lowercase) keyword that are flanked by word
  boundaries; a word boundary sits between a word character
  (letter, digit, underscore) and a non-word character or text edge.
- Python float arithmetic is modelled over the real numbers.
- The insertion-ordered dict of keyword weights is modelled as an
  association list; its keys are pairwise distinct in any state produced
  by the constructor from a dict.
- The in-place mutation paper.relevance_score = score is modelled by a
  functional record update.
-/

namespace ArxivMatch

abbrev Str := List Char

/-- Word character of the regex word class (ASCII): letter, digit or underscore. -/
def isWordChar (c : Char) : Bool := c.isAlphanum || c == '_'

/-- Model of str.lower (per-character lowercasing, ASCII fragment). -/
def lowerStr (s : Str) : Str := s.map Char.toLower

/-- Wordness of the character at position i of the text; positions outside
the text count as non-word. -/
def charIsWordAt (text : Str) (i : Nat) : Bool :=
  match text[i]? with
  | some c => isWordChar c
  | none => false

/-- Word-boundary assertion at position i: the character before position i
and the character at position i differ in wordness (the edges of the text
count as non-word). -/
def boundaryAt (text : Str) (i : Nat) : Bool :=
  (if i = 0 then false else charIsWordAt text (i - 1)) != charIsWordAt text i

/-- The keyword occurs literally at position i of the text, flanked by word
boundaries on both sides (the word-boundary regex wrapped around the
escaped keyword). -/
def matchAt (kw text : Str) (i : Nat) : Bool :=
  decide (i + kw.length ≤ text.length) && kw.isPrefixOf (text.drop i)
    && boundaryAt text i && boundaryAt text (i + kw.length)

/-- Left-to-right scan counting non-overlapping matches from position i;
after a match the scan resumes at the end of the match (one position
further for a zero-width match), as findall does. -/
def countFrom (kw text : Str) : Nat → Nat → Nat
  | _, 0 => 0
  | i, fuel + 1 =>
    if text.length < i then 0
    else if matchAt kw text i then
      1 + countFrom kw text (i + max kw.length 1) fuel
    else countFrom kw text (i + 1) fuel

/-- Model of _count_keyword_matches: the number of word-boundary matches of
the keyword in the text (len of pattern.findall(text))). -/
def countMatches (kw text : Str) : Nat := countFrom kw text 0 (text.length + 1)

/-- Helper for tokenCount: scan carrying whether the previous character was
inside a token. -/
def tokenCountAux : Str → Bool → Nat
  | [], _ => 0
  | c :: rest, inWord =>
    if c.isWhitespace then tokenCountAux rest false
    else (if inWord then 0 else 1) + tokenCountAux rest true

/-- Model of len(text.split()): the number of maximal runs of non-whitespace
characters.  _tokenize lowercases first; lowercasing preserves whitespace,
and only the length of the token list is ever used. -/
def tokenCount (s : Str) : Nat := tokenCountAux s false

/-- Model of the dataclass Paper of src/matcher.py. -/
structure Paper where
  id : Str
  title : Str
  summary : Str
  authors : List Str := []
  categories : List Str := []
  pdf_url : Str := []
  abs_url : Str := []
  comment : Str := []
  relevance_score : ℝ := 0

/-- Keyword configuration: the insertion-ordered dict from lowercase keyword
to weight held in self.keywords. -/
abbrev KwCfg := List (Str × ℝ)

/-- The combined text used by the statistics pass:
(title + one space + summary).lower(). -/
def combinedText (p : Paper) : Str := lowerStr (p.title ++ [' '] ++ p.summary)

/-- self.doc_count = len(papers). -/
def docCount (papers : List Paper) : Nat := papers.length

/-- The total combined token length accumulated by _build_corpus_stats. -/
def totalLen (papers : List Paper) : Nat :=
  (papers.map fun p => tokenCount (combinedText p)).sum

/-- self.avg_doc_len = total_len / max(doc_count, 1). -/
noncomputable def avgDocLen (papers : List Paper) : ℝ :=
  (totalLen papers : ℝ) / ((max (docCount papers) 1 : ℕ) : ℝ)

/-- self.keyword_doc_freq: the number of papers whose combined lowercased
title-and-summary text contains at least one match of the keyword. -/
def docFreq (kw : Str) (papers : List Paper) : Nat :=
  (papers.filter fun p => decide (0 < countMatches kw (combinedText p))).length

/-- _calculate_idf: max(ln((N - df + 0.5) / (df + 0.5) + 1), 0). -/
noncomputable def idf (kw : Str) (papers : List Paper) : ℝ :=
  max (Real.log (((docCount papers : ℝ) - (docFreq kw papers : ℝ) + 0.5) /
    ((docFreq kw papers : ℝ) + 0.5) + 1)) 0

/-- BM25 term-frequency saturation constant K1 of BM25Matcher. -/
def K1 : ℝ := 1.5

/-- BM25 length-normalization constant B of BM25Matcher. -/
def B : ℝ := 0.75

/-- Title boost constant TITLE_WEIGHT of BM25Matcher. -/
def TITLE_WEIGHT : ℝ := 3.0

/-- Denominator of the BM25 normalized term frequency as computed by
_calculate_bm25_score: tf + K1 * (1 - B + B * doc_len / max(avg_doc_len, 1)). -/
noncomputable def tfNormDenom (tf docLen : Nat) (avgL : ℝ) : ℝ :=
  (tf : ℝ) + K1 * (1 - B + B * (docLen : ℝ) / max avgL 1)

/-- Normalized term frequency of _calculate_bm25_score:
(tf * (K1 + 1)) / (tf + K1 * (1 - B + B * doc_len / max(avg_doc_len, 1))). -/
noncomputable def tfNorm (tf docLen : Nat) (avgL : ℝ) : ℝ :=
  ((tf : ℝ) * (K1 + 1)) / tfNormDenom tf docLen avgL

/-- The scoring loop of _calculate_bm25_score: over the keyword dict in
order, every keyword with a positive match count contributes
idf * tf_normalized * weight to the accumulated score. -/
noncomputable def bm25Score (papers : List Paper) (text : Str) (docLen : Nat) :
    KwCfg → ℝ
  | [] => 0
  | kv :: rest =>
    (if 0 < countMatches kv.1 text then
      idf kv.1 papers * tfNorm (countMatches kv.1 text) docLen (avgDocLen papers) * kv.2
    else 0) + bm25Score papers text docLen rest

/-- The matched_keywords list built by the same loop: the keywords of the
configuration, in order, whose match count in the text is positive. -/
def matchedKeywords (cfg : KwCfg) (text : Str) : List Str :=
  (cfg.filter fun kv => decide (0 < countMatches kv.1 text)).map Prod.fst

/-- self.keywords.get(kw, 1.0): the weight of the first entry with the given
key, defaulting to 1. -/
def kwLookup (cfg : KwCfg) (kw : Str) : ℝ :=
  match cfg.find? fun kv => kv.1 == kw with
  | some kv => kv.2
  | none => 1

/-- Keywords matched in the lowercased title of a paper. -/
def titleKeywords (cfg : KwCfg) (p : Paper) : List Str :=
  matchedKeywords cfg (lowerStr p.title)

/-- Keywords matched in the lowercased summary of a paper. -/
def abstractKeywords (cfg : KwCfg) (p : Paper) : List Str :=
  matchedKeywords cfg (lowerStr p.summary)

/-- The overlap set(title_keywords) & set(abstract_keywords) of score_paper,
listed in configuration order. -/
def overlapKeywords (cfg : KwCfg) (p : Paper) : List Str :=
  (titleKeywords cfg p).filter fun kw => (abstractKeywords cfg p).contains kw

/-- overlap_weight = sum(self.keywords.get(kw, 1.0) for kw in overlap). -/
noncomputable def overlapWeight (cfg : KwCfg) (p : Paper) : ℝ :=
  ((overlapKeywords cfg p).map (kwLookup cfg)).sum

/-- title_score of score_paper: the BM25 score of the lowercased title (with
the title token length) multiplied by TITLE_WEIGHT. -/
noncomputable def titleScore (cfg : KwCfg) (papers : List Paper) (p : Paper) : ℝ :=
  TITLE_WEIGHT * bm25Score papers (lowerStr p.title) (tokenCount (lowerStr p.title)) cfg

/-- abstract_score of score_paper: the BM25 score of the lowercased summary
with the summary token length. -/
noncomputable def abstractScore (cfg : KwCfg) (papers : List Paper) (p : Paper) : ℝ :=
  bm25Score papers (lowerStr p.summary) (tokenCount (lowerStr p.summary)) cfg

/-- total_score of score_paper: title_score + abstract_score, multiplied by
(1 + 0.1 * overlap_weight) exactly when the overlap is non-empty. -/
noncomputable def totalScore (cfg : KwCfg) (papers : List Paper) (p : Paper) : ℝ :=
  if overlapKeywords cfg p = [] then
    titleScore cfg papers p + abstractScore cfg papers p
  else
    (titleScore cfg papers p + abstractScore cfg papers p) * (1 + 0.1 * overlapWeight cfg p)

/-- The match_details dict returned by score_paper. -/
structure MatchDetails where
  title_keywords : List Str
  abstract_keywords : List Str
  all_matched : List Str
  title_score : ℝ
  abstract_score : ℝ
  keyword_weights : List (Str × ℝ)

/-- score_paper: the total score together with the match details.  The
all_matched field is list(set(title + abstract)); Python set order is
implementation-defined, modelled here as first-occurrence deduplication. -/
noncomputable def scorePaper (cfg : KwCfg) (papers : List Paper) (p : Paper) :
    ℝ × MatchDetails :=
  (totalScore cfg papers p,
    { title_keywords := titleKeywords cfg p
      abstract_keywords := abstractKeywords cfg p
      all_matched := (titleKeywords cfg p ++ abstractKeywords cfg p).eraseDups
      title_score := titleScore cfg papers p
      abstract_score := abstractScore cfg papers p
      keyword_weights := ((titleKeywords cfg p ++ abstractKeywords cfg p).eraseDups).map
        fun kw => (kw, kwLookup cfg kw) })

/-- The selection loop of match_papers: papers whose score reaches the
threshold, in encounter order, with the relevance_score field set and the
match details attached. -/
noncomputable def scoredPapers (cfg : KwCfg) (papers : List Paper) (threshold : ℝ) :
    List (Paper × MatchDetails) :=
  papers.filterMap fun p =>
    if threshold ≤ (scorePaper cfg papers p).1 then
      some ({ p with relevance_score := (scorePaper cfg papers p).1 },
        (scorePaper cfg papers p).2)
    else none

/-- Comparator of the sort in match_papers: key = relevance_score with
reverse=True, i.e. an entry may precede another when its score is at least
the other's. -/
noncomputable def paperLE (a b : Paper × MatchDetails) : Bool :=
  decide (b.1.relevance_score ≤ a.1.relevance_score)

/-- match_papers: build corpus statistics from the full list, keep papers
scoring at least the threshold, sort by score descending (a stable sort, as
list.sort is), and keep the first top_k entries when top_k is not None and
positive. -/
noncomputable def matchPapers (cfg : KwCfg) (papers : List Paper) (threshold : ℝ)
    (topK : Option Int) : List (Paper × MatchDetails) :=
  let sorted := (scoredPapers cfg papers threshold).mergeSort paperLE
  match topK with
  | some k => if 0 < k then sorted.take k.toNat else sorted
  | none => sorted

/-- The keywords argument of the BM25Matcher constructor: either a plain
list of terms or a dict from term to weight. -/
inductive KeywordsInput where
  | ofList : List Str → KeywordsInput
  | ofDict : List (Str × ℝ) → KeywordsInput

/-- The keyword normalization of the constructor: dict keys are lowercased
keeping their weights, list entries are lowercased with weight 1.0. -/
def parseKeywords : KeywordsInput → KwCfg
  | .ofDict kvs => kvs.map fun kv => (lowerStr kv.1, kv.2)
  | .ofList ks => ks.map fun k => (lowerStr k, 1)

/-- Error conditions a constructor could signal. -/
inductive ConfigError where
  | invalidWeight

/-- The BM25Matcher constructor viewed as a fallible operation: the source
constructor body only normalizes the keywords and initializes statistics;
it contains no validation and no failure path, so it always succeeds. -/
def configure (input : KeywordsInput) : Except ConfigError KwCfg :=
  .ok (parseKeywords input)

/-- Model of Python str.strip(): drop leading and trailing whitespace. -/
def pyStrip (s : Str) : Str :=
  ((s.dropWhile Char.isWhitespace).reverse.dropWhile Char.isWhitespace).reverse

/-- Outcome of json.loads on a (stripped) line, as observed by the try
block of load_papers_from_jsonl: the decode can raise json.JSONDecodeError
— the only exception the except clause catches; or it can succeed with a
value that is not an object, on which the subsequent data.get call raises
an AttributeError that no handler catches; or it can succeed with an
object, from whose fields (with defaults for missing ones) a Paper is
built. -/
inductive JsonDecodeResult where
  | decodeError
  | nonObject
  | object : Paper → JsonDecodeResult

/-- The uncaught exception that propagates out of load_papers_from_jsonl
and aborts the load. -/
inductive LoadAbort where
  | attributeError

/-- The line loop of load_papers_from_jsonl, parameterized by the JSON
decoder (json.loads plus field extraction, an external library call):
strip each line, skip empty lines, skip lines whose decode raises
json.JSONDecodeError (the except branch logs a diagnostic and continues
with the next line), append the paper built from a decoded object, and —
when a line decodes to a non-object value — abort the entire load: the
AttributeError raised by data.get is not caught, so it propagates and the
papers accumulated so far are discarded with the rest never read. -/
def loadLines (decode : Str → JsonDecodeResult) :
    List Str → Except LoadAbort (List Paper)
  | [] => .ok []
  | line :: rest =>
    let s := pyStrip line
    if s = [] then loadLines decode rest
    else
      match decode s with
      | .decodeError => loadLines decode rest
      | .nonObject => .error .attributeError
      | .object p => (loadLines decode rest).map fun papers => p :: papers

/-- The deduplication loop of load_papers_from_directory, carrying the
seen_ids set: a paper is kept exactly when its id has not been seen, and a
kept id is added to the set. -/
def dedupAux : List Paper → List Str → List Paper
  | [], _ => []
  | p :: rest, seen =>
    if p.id ∈ seen then dedupAux rest seen
    else p :: dedupAux rest (p.id :: seen)

/-- Deduplication by id of load_papers_from_directory, starting from an
empty seen set. -/
def dedupById (papers : List Paper) : List Paper := dedupAux papers []

/-- Claim-side description of deduplication, following the words of the
specification: keep the first occurrence of every identifier and drop all
later occurrences, preserving encounter order. -/
def keepFirstById : List Paper → List Paper
  | [] => []
  | p :: rest =>
    p :: keepFirstById (rest.filter fun q => decide (q.id ≠ p.id))
termination_by l => l.length
decreasing_by
  simp only [List.length_cons]
  exact Nat.lt_succ_of_le (List.length_filter_le _ _)

/-- Claim-side variant of the normalized term frequency, following the
claim text literally: the denominator divides by avgL itself rather than by
max(avgL, 1). -/
noncomputable def tfNormSpec (tf docLen : Nat) (avgL : ℝ) : ℝ :=
  ((tf : ℝ) * (K1 + 1)) / ((tf : ℝ) + K1 * (1 - B + B * (docLen : ℝ) / avgL))

/-! ### Basic lemmas about the scoring functions -/

theorem tfNormDenom_pos (tf docLen : Nat) (avgL : ℝ) : 0 < tfNormDenom tf docLen avgL := by
  have h1 : (0 : ℝ) < max avgL 1 := lt_of_lt_of_le one_pos (le_max_right _ _)
  have h2 : (0 : ℝ) ≤ 0.75 * (docLen : ℝ) / max avgL 1 :=
    div_nonneg (by positivity) (le_of_lt h1)
  have h3 : (0 : ℝ) ≤ (tf : ℝ) := Nat.cast_nonneg _
  unfold tfNormDenom K1 B
  linarith

theorem tfNorm_nonneg (tf docLen : Nat) (avgL : ℝ) : 0 ≤ tfNorm tf docLen avgL := by
  unfold tfNorm
  refine div_nonneg ?_ (le_of_lt (tfNormDenom_pos tf docLen avgL))
  have : (0 : ℝ) ≤ K1 + 1 := by norm_num [K1]
  exact mul_nonneg (Nat.cast_nonneg _) this

theorem tfNorm_pos (tf docLen : Nat) (avgL : ℝ) (h : 0 < tf) : 0 < tfNorm tf docLen avgL := by
  unfold tfNorm
  refine div_pos ?_ (tfNormDenom_pos tf docLen avgL)
  have h1 : (0 : ℝ) < (tf : ℝ) := by exact_mod_cast h
  have h2 : (0 : ℝ) < K1 + 1 := by norm_num [K1]
  exact mul_pos h1 h2

theorem idf_nonneg (kw : Str) (papers : List Paper) : 0 ≤ idf kw papers :=
  le_max_right _ _

theorem docFreq_le_docCount (kw : Str) (papers : List Paper) :
    docFreq kw papers ≤ docCount papers :=
  List.length_filter_le _ _

theorem idf_pos (kw : Str) (papers : List Paper) : 0 < idf kw papers := by
  have hdf : (docFreq kw papers : ℝ) ≤ (docCount papers : ℝ) := by
    exact_mod_cast docFreq_le_docCount kw papers
  have hnum : (0 : ℝ) < (docCount papers : ℝ) - (docFreq kw papers : ℝ) + 0.5 := by
    linarith
  have hden : (0 : ℝ) < (docFreq kw papers : ℝ) + 0.5 := by positivity
  have harg : (1 : ℝ) <
      ((docCount papers : ℝ) - (docFreq kw papers : ℝ) + 0.5) /
        ((docFreq kw papers : ℝ) + 0.5) + 1 := by
    have := div_pos hnum hden
    linarith
  have hlog := Real.log_pos harg
  exact lt_max_of_lt_left hlog

theorem avgDocLen_nonneg (papers : List Paper) : 0 ≤ avgDocLen papers := by
  unfold avgDocLen
  exact div_nonneg (Nat.cast_nonneg _) (Nat.cast_nonneg _)

theorem bm25Score_nil (papers : List Paper) (text : Str) (docLen : Nat) :
    bm25Score papers text docLen [] = 0 := rfl

theorem bm25Score_cons (papers : List Paper) (text : Str) (docLen : Nat)
    (kv : Str × ℝ) (rest : KwCfg) :
    bm25Score papers text docLen (kv :: rest) =
      (if 0 < countMatches kv.1 text then
        idf kv.1 papers * tfNorm (countMatches kv.1 text) docLen (avgDocLen papers) * kv.2
      else 0) + bm25Score papers text docLen rest := rfl

theorem bm25Score_append (papers : List Paper) (text : Str) (docLen : Nat)
    (l1 l2 : KwCfg) :
    bm25Score papers text docLen (l1 ++ l2) =
      bm25Score papers text docLen l1 + bm25Score papers text docLen l2 := by
  induction l1 with
  | nil => simp [bm25Score_nil]
  | cons kv rest ih =>
    simp only [List.cons_append, bm25Score_cons, ih]
    ring

theorem bm25Score_nonneg (papers : List Paper) (text : Str) (docLen : Nat)
    (cfg : KwCfg) (hpos : ∀ kv ∈ cfg, (0 : ℝ) ≤ kv.2) :
    0 ≤ bm25Score papers text docLen cfg := by
  induction cfg with
  | nil => simp [bm25Score_nil]
  | cons kv rest ih =>
    rw [bm25Score_cons]
    have hrest : 0 ≤ bm25Score papers text docLen rest :=
      ih fun x hx => hpos x (List.mem_cons_of_mem _ hx)
    have hterm : (0 : ℝ) ≤
        (if 0 < countMatches kv.1 text then
          idf kv.1 papers * tfNorm (countMatches kv.1 text) docLen (avgDocLen papers) * kv.2
        else 0) := by
      split
      · exact mul_nonneg (mul_nonneg (idf_nonneg _ _) (tfNorm_nonneg _ _ _))
          (hpos kv (List.mem_cons_self _ _))
      · exact le_refl 0
    linarith

theorem bm25Score_pos (papers : List Paper) (text : Str) (docLen : Nat)
    (cfg : KwCfg) (hpos : ∀ kv ∈ cfg, (0 : ℝ) ≤ kv.2)
    (kv : Str × ℝ) (hmem : kv ∈ cfg) (htf : 0 < countMatches kv.1 text)
    (hw : 0 < kv.2) :
    0 < bm25Score papers text docLen cfg := by
  obtain ⟨l1, l2, rfl⟩ := List.append_of_mem hmem
  rw [bm25Score_append, bm25Score_cons]
  have h1 : 0 ≤ bm25Score papers text docLen l1 :=
    bm25Score_nonneg _ _ _ _ fun x hx => hpos x (List.mem_append_left _ hx)
  have h2 : 0 ≤ bm25Score papers text docLen l2 :=
    bm25Score_nonneg _ _ _ _ fun x hx =>
      hpos x (List.mem_append_right _ (List.mem_cons_of_mem _ hx))
  have hterm : 0 <
      (if 0 < countMatches kv.1 text then
        idf kv.1 papers * tfNorm (countMatches kv.1 text) docLen (avgDocLen papers) * kv.2
      else 0) := by
    rw [if_pos htf]
    exact mul_pos (mul_pos (idf_pos _ _) (tfNorm_pos _ _ _ htf)) hw
  linarith

theorem bm25Score_eq_zero (papers : List Paper) (text : Str) (docLen : Nat)
    (cfg : KwCfg) (h : ∀ kv ∈ cfg, countMatches kv.1 text = 0) :
    bm25Score papers text docLen cfg = 0 := by
  induction cfg with
  | nil => rfl
  | cons kv rest ih =>
    rw [bm25Score_cons]
    rw [ih fun x hx => h x (List.mem_cons_of_mem _ hx)]
    rw [if_neg (by simp [h kv (List.mem_cons_self _ _)])]
    ring

theorem matchedKeywords_eq_nil (cfg : KwCfg) (text : Str)
    (h : ∀ kv ∈ cfg, countMatches kv.1 text = 0) :
    matchedKeywords cfg text = [] := by
  unfold matchedKeywords
  rw [List.filter_eq_nil_iff.mpr ?_]
  · rfl
  · intro kv hkv
    simp [h kv hkv]

theorem kwLookup_pos (cfg : KwCfg) (kw : Str)
    (hpos : ∀ kv ∈ cfg, (0 : ℝ) < kv.2) : 0 < kwLookup cfg kw := by
  unfold kwLookup
  cases hfind : cfg.find? fun kv => kv.1 == kw with
  | none => norm_num
  | some kv => exact hpos kv (List.mem_of_find?_eq_some hfind)

theorem overlapWeight_nonneg (cfg : KwCfg) (p : Paper)
    (hpos : ∀ kv ∈ cfg, (0 : ℝ) < kv.2) : 0 ≤ overlapWeight cfg p := by
  unfold overlapWeight
  refine List.sum_nonneg ?_
  intro x hx
  obtain ⟨kw, _, rfl⟩ := List.mem_map.mp hx
  exact le_of_lt (kwLookup_pos cfg kw hpos)

theorem overlapWeight_pos (cfg : KwCfg) (p : Paper)
    (hpos : ∀ kv ∈ cfg, (0 : ℝ) < kv.2)
    (hov : overlapKeywords cfg p ≠ []) : 0 < overlapWeight cfg p := by
  unfold overlapWeight
  refine List.sum_pos _ ?_ (by simpa using hov)
  intro x hx
  obtain ⟨kw, _, rfl⟩ := List.mem_map.mp hx
  exact kwLookup_pos cfg kw hpos

theorem bm25Score_eq_sum (papers : List Paper) (text : Str) (docLen : Nat)
    (cfg : KwCfg) :
    bm25Score papers text docLen cfg =
      (cfg.map fun kv =>
        idf kv.1 papers * tfNorm (countMatches kv.1 text) docLen (avgDocLen papers) * kv.2).sum := by
  induction cfg with
  | nil => rfl
  | cons kv rest ih =>
    rw [bm25Score_cons, List.map_cons, List.sum_cons, ih]
    congr 1
    by_cases h : 0 < countMatches kv.1 text
    · rw [if_pos h]
    · rw [if_neg h]
      rw [Nat.eq_zero_of_not_pos h]
      simp [tfNorm]

/-! ### Concrete two-document corpus used by counterexamples: its average
combined token length is 1/2, strictly below the clamp value 1. -/

def cePaper1 : Paper := { id := "1".data, title := "ai".data, summary := [] }

def cePaper2 : Paper := { id := "2".data, title := [], summary := [] }

def cePapers : List Paper := [cePaper1, cePaper2]

theorem cePapers_totalLen : totalLen cePapers = 1 := by decide

theorem cePapers_docCount : docCount cePapers = 2 := rfl

theorem cePapers_avg : avgDocLen cePapers = 1 / 2 := by
  unfold avgDocLen
  rw [cePapers_totalLen, cePapers_docCount]
  norm_num

theorem cePapers_docFreq : docFreq "ai".data cePapers = 1 := by decide

theorem cePapers_idf : idf "ai".data cePapers = Real.log 2 := by
  unfold idf
  rw [cePapers_docFreq, cePapers_docCount]
  have harg : ((2 : ℕ) : ℝ) - ((1 : ℕ) : ℝ) + 0.5 = 1.5 := by norm_num
  have harg2 : (((2 : ℕ) : ℝ) - ((1 : ℕ) : ℝ) + 0.5) / (((1 : ℕ) : ℝ) + 0.5) + 1 = 2 := by
    norm_num
  rw [harg2]
  exact max_eq_left (Real.log_nonneg one_le_two)

/-- C1 (amended): for every configured keyword and every document field, the
keyword contributes idf * tf_norm * weight to the field score, with
idf = max(ln((N - df + 0.5)/(df + 0.5) + 1), 0), tf the word-boundary
case-insensitive match count in the lowercased field text, and
tf_norm = tf*(k1+1) / (tf + k1*(1 - b + b*L/max(avgL, 1))) for k1 = 1.5 and
b = 0.75, where L is the field token count and avgL is the one corpus-wide
average combined title+summary token length shared by both fields (clamped
to at least 1 in the denominator); the summed title-field score is then
multiplied by exactly 3.0, the abstract-field score is the bare sum. -/
theorem C1_field_score_formula (cfg : KwCfg) (papers : List Paper) (p : Paper) :
    titleScore cfg papers p =
      3.0 * (cfg.map fun kv =>
        max (Real.log (((docCount papers : ℝ) - (docFreq kv.1 papers : ℝ) + 0.5) /
            ((docFreq kv.1 papers : ℝ) + 0.5) + 1)) 0 *
          ((countMatches kv.1 (lowerStr p.title) : ℝ) * (1.5 + 1) /
            ((countMatches kv.1 (lowerStr p.title) : ℝ) +
              1.5 * (1 - 0.75 + 0.75 * (tokenCount (lowerStr p.title) : ℝ) /
                max (avgDocLen papers) 1))) * kv.2).sum ∧
    abstractScore cfg papers p =
      (cfg.map fun kv =>
        max (Real.log (((docCount papers : ℝ) - (docFreq kv.1 papers : ℝ) + 0.5) /
            ((docFreq kv.1 papers : ℝ) + 0.5) + 1)) 0 *
          ((countMatches kv.1 (lowerStr p.summary) : ℝ) * (1.5 + 1) /
            ((countMatches kv.1 (lowerStr p.summary) : ℝ) +
              1.5 * (1 - 0.75 + 0.75 * (tokenCount (lowerStr p.summary) : ℝ) /
                max (avgDocLen papers) 1))) * kv.2).sum := by
  constructor
  · unfold titleScore TITLE_WEIGHT
    rw [bm25Score_eq_sum]
    simp only [idf, tfNorm, tfNormDenom, K1, B]
  · unfold abstractScore
    rw [bm25Score_eq_sum]
    simp only [idf, tfNorm, tfNormDenom, K1, B]

/-- C1 counterexample: the claim computes tf_norm with the raw corpus
average avgL in the denominator, but the code divides by max(avgL, 1).  On
a two-document corpus with average combined token length 1/2, the actual
title-field score of the first document differs from the value the claim
formula prescribes. -/
theorem C1_counterexample :
    titleScore [("ai".data, 1)] cePapers cePaper1 ≠
      3.0 * (idf "ai".data cePapers *
        tfNormSpec (countMatches "ai".data (lowerStr cePaper1.title))
          (tokenCount (lowerStr cePaper1.title)) (avgDocLen cePapers) * 1) := by
  have hc : countMatches "ai".data (lowerStr cePaper1.title) = 1 := by decide
  have ht : tokenCount (lowerStr cePaper1.title) = 1 := by decide
  have hlog : 0 < Real.log 2 := Real.log_pos (by norm_num)
  unfold titleScore TITLE_WEIGHT
  rw [bm25Score_cons, bm25Score_nil]
  simp only [hc, ht, cePapers_avg, cePapers_idf]
  rw [if_pos (by norm_num)]
  unfold tfNorm tfNormDenom tfNormSpec K1 B
  rw [max_eq_right (by norm_num : (1 / 2 : ℝ) ≤ 1)]
  intro h
  norm_num at h
  have hidf : idf ['a', 'i'] cePapers = Real.log 2 := cePapers_idf
  rw [hidf] at h
  nlinarith [hlog]

/-- C4 (amended): the constructor performs no weight validation at all:
every keyword configuration is accepted, dict inputs keep their weights
with lowercased keys and list inputs get weight 1.0; in particular
all-positive-weight configurations succeed, but so do configurations
containing non-positive weights. -/
theorem C4_no_weight_validation :
    (∀ kvs : List (Str × ℝ),
      configure (.ofDict kvs) = .ok (kvs.map fun kv => (lowerStr kv.1, kv.2))) ∧
    (∀ ks : List Str,
      configure (.ofList ks) = .ok (ks.map fun k => (lowerStr k, 1))) :=
  ⟨fun _ => rfl, fun _ => rfl⟩

/-- C4 counterexample: a configuration carrying the non-positive weight -1
is accepted by the constructor instead of failing with an InvalidWeight
condition. -/
theorem C4_counterexample :
    ((-1 : ℝ) ≤ 0) ∧ (configure (.ofDict [("ai".data, -1)])).isOk = true :=
  ⟨by norm_num, rfl⟩

/-- C7: scoring an empty collection returns the empty ranked sequence, and
every divisor the engine uses is non-zero on all inputs: the average-length
computation divides by max(N, 1), which is positive, the idf computation
divides by df + 0.5, which is positive, and the tf_norm denominator, which
treats avgL as at least 1, is positive. -/
theorem C7_empty_collection_safe :
    (∀ (cfg : KwCfg) (t : ℝ) (topK : Option Int), matchPapers cfg [] t topK = []) ∧
    (∀ (tf docLen : Nat) (avgL : ℝ), 0 < tfNormDenom tf docLen avgL) ∧
    (∀ papers : List Paper, (0 : ℝ) < ((max (docCount papers) 1 : ℕ) : ℝ)) ∧
    (∀ (kw : Str) (papers : List Paper), (0 : ℝ) < (docFreq kw papers : ℝ) + 0.5) ∧
    (∀ avgL : ℝ, (1 : ℝ) ≤ max avgL 1) := by
  refine ⟨?_, tfNormDenom_pos, ?_, ?_, fun avgL => le_max_right _ _⟩
  · intro cfg t topK
    cases topK with
    | none => simp [matchPapers, scoredPapers, List.mergeSort_nil]
    | some k => simp [matchPapers, scoredPapers, List.mergeSort_nil]
  · intro papers
    have h : 0 < max (docCount papers) 1 :=
      Nat.lt_of_lt_of_le Nat.zero_lt_one (Nat.le_max_right _ _)
    exact_mod_cast h
  · intro kw papers
    positivity

theorem scorePaper_fst (cfg : KwCfg) (papers : List Paper) (p : Paper) :
    (scorePaper cfg papers p).1 = totalScore cfg papers p := rfl

theorem mem_matchedKeywords {cfg : KwCfg} {text : Str} {kw : Str}
    (h : kw ∈ matchedKeywords cfg text) :
    ∃ kv ∈ cfg, kv.1 = kw ∧ 0 < countMatches kv.1 text := by
  unfold matchedKeywords at h
  obtain ⟨kv, hkv, rfl⟩ := List.mem_map.mp h
  obtain ⟨hmem, hdec⟩ := List.mem_filter.mp hkv
  exact ⟨kv, hmem, rfl, by simpa using hdec⟩

/-- C3: when the sets of keywords matched in title and abstract intersect,
the combined title+abstract score is multiplied by exactly
(1 + 0.1 * sum of the configured weights of the overlapping keywords); no
multiplier is applied when the overlap is empty; and consequently (weights
being positive, per the data model) the bonused final score is strictly
higher than the un-bonused combined title+abstract score — the score the
same content would receive were the match present in only one field. -/
theorem C3_overlap_bonus (cfg : KwCfg) (papers : List Paper) (p : Paper)
    (hpos : ∀ kv ∈ cfg, (0 : ℝ) < kv.2) :
    (overlapKeywords cfg p = [] →
      totalScore cfg papers p =
        titleScore cfg papers p + abstractScore cfg papers p) ∧
    (overlapKeywords cfg p ≠ [] →
      totalScore cfg papers p =
        (titleScore cfg papers p + abstractScore cfg papers p) *
          (1 + 0.1 * overlapWeight cfg p) ∧
      titleScore cfg papers p + abstractScore cfg papers p <
        totalScore cfg papers p) := by
  refine ⟨fun hemp => by unfold totalScore; rw [if_pos hemp], fun hov => ?_⟩
  have heq : totalScore cfg papers p =
      (titleScore cfg papers p + abstractScore cfg papers p) *
        (1 + 0.1 * overlapWeight cfg p) := by
    unfold totalScore
    rw [if_neg hov]
  refine ⟨heq, ?_⟩
  obtain ⟨kw, hkw⟩ := List.exists_mem_of_ne_nil _ hov
  have hkwt : kw ∈ titleKeywords cfg p := (List.mem_filter.mp hkw).1
  obtain ⟨kv, hmem, _, htf⟩ := mem_matchedKeywords hkwt
  have hpos' : ∀ kv ∈ cfg, (0 : ℝ) ≤ kv.2 := fun x hx => le_of_lt (hpos x hx)
  have htitle : 0 < titleScore cfg papers p := by
    unfold titleScore
    have := bm25Score_pos papers (lowerStr p.title) (tokenCount (lowerStr p.title))
      cfg hpos' kv hmem htf (hpos kv hmem)
    have h3 : (0 : ℝ) < TITLE_WEIGHT := by norm_num [TITLE_WEIGHT]
    exact mul_pos h3 this
  have habs : 0 ≤ abstractScore cfg papers p :=
    bm25Score_nonneg _ _ _ _ hpos'
  have hbase : 0 < titleScore cfg papers p + abstractScore cfg papers p := by linarith
  have how : 0 < overlapWeight cfg p := overlapWeight_pos cfg p hpos hov
  rw [heq]
  have : (1 : ℝ) < 1 + 0.1 * overlapWeight cfg p := by linarith
  exact (lt_mul_iff_one_lt_right hbase).mpr this

/-- C8: for two documents scored against the same collection that are
identical except that title and abstract are swapped — the matching text s
is the title of the one and the abstract of the other, and the remaining
field u matches no configured keyword — the final scores differ by exactly
the title-boost factor TITLE_WEIGHT = 3.0. -/
theorem C8_title_boost (cfg : KwCfg) (papers : List Paper) (s u : Str)
    (p q : Paper)
    (hpt : p.title = s) (hps : p.summary = u)
    (hqt : q.title = u) (hqs : q.summary = s)
    (hu : ∀ kv ∈ cfg, countMatches kv.1 (lowerStr u) = 0) :
    totalScore cfg papers p = TITLE_WEIGHT * totalScore cfg papers q := by
  have hz1 : bm25Score papers (lowerStr u) (tokenCount (lowerStr u)) cfg = 0 :=
    bm25Score_eq_zero _ _ _ _ hu
  have hnil : matchedKeywords cfg (lowerStr u) = [] :=
    matchedKeywords_eq_nil _ _ hu
  unfold totalScore titleScore abstractScore overlapKeywords titleKeywords
    abstractKeywords
  rw [hpt, hps, hqt, hqs, hnil, hz1]
  have hov1 : (matchedKeywords cfg (lowerStr s)).filter
      (fun kw => List.contains ([] : List Str) kw) = [] := by simp
  rw [hov1, List.filter_nil, if_pos rfl, if_pos rfl]
  ring

theorem totalScore_eq_zero (cfg : KwCfg) (papers : List Paper) (p : Paper)
    (h : ∀ kv ∈ cfg, countMatches kv.1 (lowerStr p.title) = 0 ∧
      countMatches kv.1 (lowerStr p.summary) = 0) :
    totalScore cfg papers p = 0 := by
  have ht : bm25Score papers (lowerStr p.title) (tokenCount (lowerStr p.title)) cfg = 0 :=
    bm25Score_eq_zero _ _ _ _ fun kv hkv => (h kv hkv).1
  have ha : bm25Score papers (lowerStr p.summary) (tokenCount (lowerStr p.summary)) cfg = 0 :=
    bm25Score_eq_zero _ _ _ _ fun kv hkv => (h kv hkv).2
  have hnil : matchedKeywords cfg (lowerStr p.title) = [] :=
    matchedKeywords_eq_nil _ _ fun kv hkv => (h kv hkv).1
  unfold totalScore titleScore abstractScore overlapKeywords titleKeywords
  rw [hnil, ht, ha, List.filter_nil, if_pos rfl]
  ring

/-- C5 (amended): a document in which no configured keyword matches either
field scores exactly 0; with an empty keyword configuration every document
scores 0, so for any positive threshold the result is empty. -/
theorem C5_no_match_scores_zero :
    (∀ (cfg : KwCfg) (papers : List Paper) (p : Paper),
      (∀ kv ∈ cfg, countMatches kv.1 (lowerStr p.title) = 0 ∧
        countMatches kv.1 (lowerStr p.summary) = 0) →
      totalScore cfg papers p = 0) ∧
    (∀ (papers : List Paper) (t : ℝ) (topK : Option Int), 0 < t →
      matchPapers [] papers t topK = []) := by
  refine ⟨totalScore_eq_zero, ?_⟩
  intro papers t topK ht
  have hsel : scoredPapers [] papers t = [] := by
    unfold scoredPapers
    rw [List.filterMap_eq_nil_iff.mpr ?_]
    intro p _
    rw [if_neg ?_]
    rw [scorePaper_fst, totalScore_eq_zero [] papers p (by simp)]
    linarith
  unfold matchPapers
  rw [hsel]
  cases topK with
  | none => simp
  | some k => simp

/-- C5 counterexample: the claim quantifies over any nonzero threshold, but
with the nonzero (negative) threshold -1 and an empty keyword set, a
non-empty collection yields a non-empty result, because every document
scores 0 and 0 is at least -1. -/
theorem C5_counterexample : matchPapers [] [cePaper1] (-1) none ≠ [] := by
  have hscore : (scorePaper [] [cePaper1] cePaper1).1 = 0 := by
    rw [scorePaper_fst]
    exact totalScore_eq_zero [] [cePaper1] cePaper1 (by simp)
  have h1 : scoredPapers [] [cePaper1] (-1) =
      [({ cePaper1 with relevance_score := (scorePaper [] [cePaper1] cePaper1).1 },
        (scorePaper [] [cePaper1] cePaper1).2)] := by
    unfold scoredPapers
    simp only [List.filterMap_cons, List.filterMap_nil]
    rw [if_pos (by rw [hscore]; norm_num)]
  unfold matchPapers
  rw [h1]
  rw [List.perm_singleton.mp (List.mergeSort_perm _ paperLE)]
  simp

theorem matchedKeywords_replace (pre post : KwCfg) (kw : Str) (w w' : ℝ)
    (text : Str) :
    matchedKeywords (pre ++ (kw, w) :: post) text =
      matchedKeywords (pre ++ (kw, w') :: post) text := by
  unfold matchedKeywords
  rw [List.filter_append, List.filter_append, List.filter_cons, List.filter_cons]
  by_cases h : 0 < countMatches kw text
  · simp [h]
  · simp [h]

theorem kwLookup_replace_le (pre post : KwCfg) (kw : Str) (w w' : ℝ)
    (hw : w ≤ w') (k : Str) :
    kwLookup (pre ++ (kw, w) :: post) k ≤ kwLookup (pre ++ (kw, w') :: post) k := by
  unfold kwLookup
  rw [List.find?_append, List.find?_append]
  cases hfind : pre.find? fun kv => kv.1 == k with
  | some kv => simp [hfind]
  | none =>
    simp only [hfind, Option.none_or, List.find?_cons]
    by_cases hk : (kw == k) = true
    · simp [hk, hw]
    · simp [hk]

theorem bm25Score_replace_le (papers : List Paper) (text : Str) (docLen : Nat)
    (pre post : KwCfg) (kw : Str) (w w' : ℝ) (hw : w ≤ w') :
    bm25Score papers text docLen (pre ++ (kw, w) :: post) ≤
      bm25Score papers text docLen (pre ++ (kw, w') :: post) := by
  rw [bm25Score_append, bm25Score_append, bm25Score_cons, bm25Score_cons]
  have hmul : idf kw papers * tfNorm (countMatches kw text) docLen (avgDocLen papers) * w ≤
      idf kw papers * tfNorm (countMatches kw text) docLen (avgDocLen papers) * w' :=
    mul_le_mul_of_nonneg_left hw (mul_nonneg (idf_nonneg _ _) (tfNorm_nonneg _ _ _))
  by_cases h : 0 < countMatches kw text
  · simp only [if_pos h]
    linarith
  · simp only [if_neg h]
    linarith

theorem overlapKeywords_replace (pre post : KwCfg) (kw : Str) (w w' : ℝ)
    (p : Paper) :
    overlapKeywords (pre ++ (kw, w) :: post) p =
      overlapKeywords (pre ++ (kw, w') :: post) p := by
  unfold overlapKeywords titleKeywords abstractKeywords
  rw [matchedKeywords_replace pre post kw w w' (lowerStr p.title),
    matchedKeywords_replace pre post kw w w' (lowerStr p.summary)]

theorem overlapWeight_replace_le (pre post : KwCfg) (kw : Str) (w w' : ℝ)
    (hw : w ≤ w') (p : Paper) :
    overlapWeight (pre ++ (kw, w) :: post) p ≤
      overlapWeight (pre ++ (kw, w') :: post) p := by
  unfold overlapWeight
  rw [← overlapKeywords_replace pre post kw w w' p]
  exact List.sum_le_sum fun k _ => kwLookup_replace_le pre post kw w w' hw k

/-- C6: increasing the configured weight of one keyword that the document
matches, holding the collection, all other weights (all positive) and the
document contents fixed, never decreases the document's final score. -/
theorem C6_weight_monotone (papers : List Paper) (p : Paper) (pre post : KwCfg)
    (kw : Str) (w w' : ℝ)
    (hpos : ∀ kv ∈ pre ++ (kw, w) :: post, (0 : ℝ) < kv.2)
    (hw : w ≤ w')
    (hmatch : 0 < countMatches kw (lowerStr p.title) ∨
      0 < countMatches kw (lowerStr p.summary)) :
    totalScore (pre ++ (kw, w) :: post) papers p ≤
      totalScore (pre ++ (kw, w') :: post) papers p := by
  have hw0 : (0 : ℝ) < w := hpos (kw, w) (by simp)
  have hposle : ∀ kv ∈ pre ++ (kw, w) :: post, (0 : ℝ) ≤ kv.2 :=
    fun kv hkv => le_of_lt (hpos kv hkv)
  have htw : (0 : ℝ) ≤ TITLE_WEIGHT := by norm_num [TITLE_WEIGHT]
  have hbase : titleScore (pre ++ (kw, w) :: post) papers p +
      abstractScore (pre ++ (kw, w) :: post) papers p ≤
      titleScore (pre ++ (kw, w') :: post) papers p +
        abstractScore (pre ++ (kw, w') :: post) papers p := by
    unfold titleScore abstractScore
    have h1 := bm25Score_replace_le papers (lowerStr p.title)
      (tokenCount (lowerStr p.title)) pre post kw w w' hw
    have h2 := bm25Score_replace_le papers (lowerStr p.summary)
      (tokenCount (lowerStr p.summary)) pre post kw w w' hw
    have := mul_le_mul_of_nonneg_left h1 htw
    linarith
  have hbase0 : 0 ≤ titleScore (pre ++ (kw, w) :: post) papers p +
      abstractScore (pre ++ (kw, w) :: post) papers p := by
    have h1 := bm25Score_nonneg papers (lowerStr p.title)
      (tokenCount (lowerStr p.title)) _ hposle
    have h2 := bm25Score_nonneg papers (lowerStr p.summary)
      (tokenCount (lowerStr p.summary)) _ hposle
    unfold titleScore abstractScore
    have := mul_nonneg htw h1
    linarith
  have hov := overlapKeywords_replace pre post kw w w' p
  have hwow := overlapWeight_replace_le pre post kw w w' hw p
  have how0 : 0 ≤ overlapWeight (pre ++ (kw, w) :: post) p :=
    overlapWeight_nonneg _ p hpos
  unfold totalScore
  rw [← hov]
  by_cases hne : overlapKeywords (pre ++ (kw, w) :: post) p = []
  · rw [if_pos hne, if_pos hne]
    exact hbase
  · rw [if_neg hne, if_neg hne]
    exact mul_le_mul hbase (by linarith) (by linarith) (le_trans hbase0 hbase)

theorem list_filterMap_ite {α β : Type} (l : List α) (C : α → Prop)
    [DecidablePred C] (g : α → β) :
    (l.filterMap fun a => if C a then some (g a) else none) =
      (l.filter fun a => decide (C a)).map g := by
  induction l with
  | nil => rfl
  | cons a l ih =>
    by_cases h : C a
    · simp [List.filterMap_cons, List.filter_cons, h, ih]
    · simp [List.filterMap_cons, List.filter_cons, h, ih]

theorem scoredPapers_eq (cfg : KwCfg) (papers : List Paper) (t : ℝ) :
    scoredPapers cfg papers t =
      (papers.filter fun p => decide (t ≤ (scorePaper cfg papers p).1)).map
        fun p => ({ p with relevance_score := (scorePaper cfg papers p).1 },
          (scorePaper cfg papers p).2) := by
  unfold scoredPapers
  exact list_filterMap_ite papers (fun p => t ≤ (scorePaper cfg papers p).1) _

theorem paperLE_trans (a b c : Paper × MatchDetails)
    (h1 : paperLE a b = true) (h2 : paperLE b c = true) : paperLE a c = true := by
  simp only [paperLE, decide_eq_true_eq] at h1 h2 ⊢
  exact le_trans h2 h1

theorem paperLE_total (a b : Paper × MatchDetails) :
    (paperLE a b || paperLE b a) = true := by
  simp only [paperLE, Bool.or_eq_true, decide_eq_true_eq]
  exact le_total b.1.relevance_score a.1.relevance_score

/-- C2: the untruncated output of match_papers contains exactly the
documents whose final score reaches the threshold (inclusive comparison),
with the relevance_score field set; it is ordered descending by final
score; a provided positive top_k truncates the sorted output to its first
top_k entries, so the length never exceeds top_k; top_k absent or
non-positive imposes no limit. -/
theorem C2_filter_sort_truncate (cfg : KwCfg) (papers : List Paper) (t : ℝ) :
    (matchPapers cfg papers t none).Perm
      ((papers.filter fun p => decide (t ≤ (scorePaper cfg papers p).1)).map
        fun p => ({ p with relevance_score := (scorePaper cfg papers p).1 },
          (scorePaper cfg papers p).2)) ∧
    (matchPapers cfg papers t none).Pairwise
      (fun a b => b.1.relevance_score ≤ a.1.relevance_score) ∧
    (∀ k : Int, matchPapers cfg papers t (some k) =
      if 0 < k then (matchPapers cfg papers t none).take k.toNat
      else matchPapers cfg papers t none) ∧
    (∀ k : Int, 0 < k →
      ((matchPapers cfg papers t (some k)).length : Int) ≤ k) := by
  refine ⟨?_, ?_, fun k => rfl, ?_⟩
  · rw [← scoredPapers_eq]
    unfold matchPapers
    exact List.mergeSort_perm _ _
  · have hs := List.sorted_mergeSort paperLE_trans paperLE_total
      (scoredPapers cfg papers t)
    unfold matchPapers
    refine hs.imp ?_
    intro a b h
    simpa [paperLE] using h
  · intro k hk
    have h1 : matchPapers cfg papers t (some k) =
        ((scoredPapers cfg papers t).mergeSort paperLE).take k.toNat := by
      simp [matchPapers, hk]
    rw [h1]
    have h2 : (((scoredPapers cfg papers t).mergeSort paperLE).take k.toNat).length ≤
        k.toNat := by
      rw [List.length_take]
      exact min_le_left _ _
    omega

theorem dedupAux_eq_keepFirst (l : List Paper) :
    ∀ seen : List Str,
      dedupAux l seen = keepFirstById (l.filter fun p => decide (p.id ∉ seen)) := by
  induction l with
  | nil => intro seen; simp [dedupAux, keepFirstById]
  | cons p rest ih =>
    intro seen
    by_cases h : p.id ∈ seen
    · rw [show dedupAux (p :: rest) seen = dedupAux rest seen from by
        simp [dedupAux, h]]
      rw [ih seen]
      congr 1
      rw [List.filter_cons, if_neg (by simp [h])]
    · rw [show dedupAux (p :: rest) seen = p :: dedupAux rest (p.id :: seen) from by
        simp [dedupAux, h]]
      rw [ih (p.id :: seen)]
      rw [List.filter_cons, if_pos (by simp [h])]
      rw [show keepFirstById (p :: rest.filter fun q => decide (q.id ∉ seen)) =
        p :: keepFirstById ((rest.filter fun q => decide (q.id ∉ seen)).filter
          fun q => decide (q.id ≠ p.id)) from by rw [keepFirstById]]
      congr 1
      rw [List.filter_filter]
      refine congrArg keepFirstById (List.filter_congr ?_)
      intro x _
      simp [List.mem_cons, not_or, Bool.and_comm]

theorem dedupAux_ids_fresh (l : List Paper) :
    ∀ seen : List Str,
      ((dedupAux l seen).map fun p => p.id).Nodup ∧
      ∀ x ∈ (dedupAux l seen).map fun p => p.id, x ∉ seen := by
  induction l with
  | nil => intro seen; simp [dedupAux]
  | cons p rest ih =>
    intro seen
    by_cases h : p.id ∈ seen
    · rw [show dedupAux (p :: rest) seen = dedupAux rest seen from by
        simp [dedupAux, h]]
      exact ih seen
    · rw [show dedupAux (p :: rest) seen = p :: dedupAux rest (p.id :: seen) from by
        simp [dedupAux, h]]
      obtain ⟨hnd, hfresh⟩ := ih (p.id :: seen)
      refine ⟨?_, ?_⟩
      · rw [List.map_cons]
        refine List.nodup_cons.mpr ⟨?_, hnd⟩
        intro hmem
        exact hfresh _ hmem (List.mem_cons_self _ _)
      · intro x hx
        rcases List.mem_cons.mp hx with rfl | hx
        · exact h
        · exact fun hxs => hfresh x hx (List.mem_cons_of_mem _ hxs)

theorem dedupAux_sublist (l : List Paper) :
    ∀ seen : List Str, (dedupAux l seen).Sublist l := by
  induction l with
  | nil => intro seen; simp [dedupAux]
  | cons p rest ih =>
    intro seen
    by_cases h : p.id ∈ seen
    · rw [show dedupAux (p :: rest) seen = dedupAux rest seen from by
        simp [dedupAux, h]]
      exact (ih seen).cons p
    · rw [show dedupAux (p :: rest) seen = p :: dedupAux rest (p.id :: seen) from by
        simp [dedupAux, h]]
      exact (ih (p.id :: seen)).cons₂ p

/-- C9: the deduplication of the directory loader keeps, for every
identifier, exactly the first occurrence encountered and drops all later
occurrences, preserving encounter order: it agrees with the keep-first
description, its identifiers are pairwise distinct, and it is an
order-preserving sublist of its input. -/
theorem C9_dedup_keeps_first (l : List Paper) :
    dedupById l = keepFirstById l ∧
    ((dedupById l).map fun p => p.id).Nodup ∧
    (dedupById l).Sublist l := by
  refine ⟨?_, (dedupAux_ids_fresh l []).1, dedupAux_sublist l []⟩
  unfold dedupById
  rw [dedupAux_eq_keepFirst l []]
  congr 1
  simp

/-- C10 (amended): a line whose JSON decode fails is skipped and loading
continues with the remaining records — inserting such a line anywhere in
the input changes nothing; but a non-empty line that decodes to a
non-object value aborts the whole load (the diagnostic print is an I/O
side effect outside this model). -/
theorem C10_decode_failure_skipped (decode : Str → JsonDecodeResult) :
    (∀ (pre post : List Str) (bad : Str), decode (pyStrip bad) = .decodeError →
      loadLines decode (pre ++ bad :: post) = loadLines decode (pre ++ post)) ∧
    (∀ (line : Str) (rest : List Str), decode (pyStrip line) = .nonObject →
      pyStrip line ≠ [] →
      loadLines decode (line :: rest) = .error .attributeError) := by
  constructor
  · intro pre post bad h
    induction pre with
    | nil =>
      simp only [List.nil_append, loadLines]
      by_cases hb : pyStrip bad = []
      · simp [hb]
      · simp [hb, h]
    | cons l pre ih =>
      simp only [List.cons_append, loadLines]
      by_cases hl : pyStrip l = []
      · simp [hl, ih]
      · simp only [if_neg hl]
        cases decode (pyStrip l) <;> simp [ih]
  · intro line rest h hne
    simp only [loadLines]
    rw [if_neg hne, h]

/-! ### Concrete witnesses instantiating the conditional theorems -/

/-- Paper matching the keyword "ai" in both fields. -/
def wPaperBoth : Paper := { id := "w".data, title := "ai".data, summary := "ai".data }

/-- Paper matching "ai" in the title only; its summary is "hello". -/
def wPaperT : Paper := { id := "t".data, title := "ai".data, summary := "hello".data }

/-- The same content with title and summary swapped: "ai" matches in the
abstract only. -/
def wPaperA : Paper := { id := "a".data, title := "hello".data, summary := "ai".data }

/-- Concrete decoder reflecting json.loads on three specific lines: the
line "null" is valid JSON whose decoded value None is not an object, so
the subsequent data.get raises an uncaught AttributeError; the line "@" is
not valid JSON, raising the caught json.JSONDecodeError; the line "rec"
stands for a well-formed record object building cePaper1. -/
def ceDecode : Str → JsonDecodeResult :=
  fun s =>
    if s = "null".data then .nonObject
    else if s = "rec".data then .object cePaper1
    else .decodeError

/-- Witness for C2 at a concrete input. -/
theorem C2_filter_sort_truncate_witness :
    ((0 : Int) < 1) ∧ ((matchPapers [] [] 0 (some 1)).length : Int) ≤ 1 :=
  ⟨by norm_num, (C2_filter_sort_truncate [] [] 0).2.2.2 1 (by norm_num)⟩

/-- Witness for C3 at a concrete input: a one-keyword configuration and a
document matching it in both fields. -/
theorem C3_overlap_bonus_witness :
    totalScore [("ai".data, 1)] [wPaperBoth] wPaperBoth =
      (titleScore [("ai".data, 1)] [wPaperBoth] wPaperBoth +
        abstractScore [("ai".data, 1)] [wPaperBoth] wPaperBoth) *
        (1 + 0.1 * overlapWeight [("ai".data, 1)] wPaperBoth) ∧
    titleScore [("ai".data, 1)] [wPaperBoth] wPaperBoth +
      abstractScore [("ai".data, 1)] [wPaperBoth] wPaperBoth <
      totalScore [("ai".data, 1)] [wPaperBoth] wPaperBoth :=
  (C3_overlap_bonus [("ai".data, 1)] [wPaperBoth] wPaperBoth
    (by intro kv hkv; simp at hkv; subst hkv; norm_num)).2 (by decide)

/-- Witness for C5 at a concrete input: a keyword matching neither field,
and an empty configuration with a positive threshold. -/
theorem C5_no_match_scores_zero_witness :
    totalScore [("zz".data, 1)] [cePaper1] cePaper1 = 0 ∧
    matchPapers [] [cePaper1] (1 / 2) none = [] :=
  ⟨C5_no_match_scores_zero.1 [("zz".data, 1)] [cePaper1] cePaper1
      (by intro kv hkv; simp at hkv; subst hkv; exact ⟨by decide, by decide⟩),
    C5_no_match_scores_zero.2 [cePaper1] (1 / 2) none (by norm_num)⟩

/-- Witness for C6 at a concrete input: raising the weight of the matched
keyword "ai" from 1 to 2. -/
theorem C6_weight_monotone_witness :
    totalScore [("ai".data, 1)] [cePaper1] cePaper1 ≤
      totalScore [("ai".data, 2)] [cePaper1] cePaper1 :=
  C6_weight_monotone [cePaper1] cePaper1 [] [] "ai".data 1 2
    (by intro kv hkv; simp at hkv; subst hkv; norm_num)
    (by norm_num)
    (Or.inl (by decide))

/-- Witness for C8 at a concrete input: the pair of swapped documents. -/
theorem C8_title_boost_witness :
    totalScore [("ai".data, 1)] [wPaperT, wPaperA] wPaperT =
      TITLE_WEIGHT * totalScore [("ai".data, 1)] [wPaperT, wPaperA] wPaperA :=
  C8_title_boost [("ai".data, 1)] [wPaperT, wPaperA] "ai".data "hello".data
    wPaperT wPaperA rfl rfl rfl rfl
    (by intro kv hkv; simp at hkv; subst hkv; decide)

/-- C10 counterexample: the except clause catches only json.JSONDecodeError,
so the line "null" — a malformed record in the claim's sense, since it
cannot be parsed into a document — is not skipped: it raises an uncaught
AttributeError at data.get and aborts the entire load, losing the
well-formed record that follows it, even though that record alone loads
fine. -/
theorem C10_counterexample :
    loadLines ceDecode ["null".data, "rec".data] = .error .attributeError ∧
    loadLines ceDecode ["rec".data] = .ok [cePaper1] :=
  ⟨rfl, rfl⟩

/-- Witness for C10 at concrete inputs: a JSON-syntax-error line between
two record lines is skipped with loading continuing, and a valid-JSON
non-object line aborts the load. -/
theorem C10_decode_failure_skipped_witness :
    loadLines ceDecode ["rec".data, "@".data, "rec".data] =
      loadLines ceDecode ["rec".data, "rec".data] ∧
    loadLines ceDecode ["null".data, "rec".data] = .error .attributeError :=
  ⟨(C10_decode_failure_skipped ceDecode).1 ["rec".data] ["rec".data] "@".data rfl,
    (C10_decode_failure_skipped ceDecode).2 "null".data ["rec".data] rfl (by decide)⟩

end ArxivMatch
